import Mathlib

/-!
Shallow embedding of the chainhook predicate-evaluation core.

Sources embedded:
- components/chainhook-sdk/src/chainhooks/bitcoin/mod.rs
  (`evaluate_transaction_predicate`, `evaluate_bitcoin_chainhooks_on_chain_event`,
   `OpReturn::from_string`, `into_specification_for_network`)
- components/chainhook-cli/src/service/mod.rs
  (`set_predicate_streaming_status`, `set_predicate_scanning_status`, `set_expired_status`)
- components/chainhook-cli/src/archive/mod.rs
  (the TSV-archive freshness decision of `download_stacks_dataset_if_required`)

Modelling conventions:
- Rust `u64`/`u32`/`u128` values are modelled as `Nat` (counters and heights stay far
  from the overflow boundary; debug-mode Rust would panic on overflow rather than wrap).
- Rust strings are modelled as Lean `String`, treated as sequences of characters; the
  byte-indexed slice `s[2..]` is modelled as a char-indexed drop, which agrees with the
  Rust behaviour on ASCII data (script pubkeys and hex digests are ASCII).
- A Rust panic (`unwrap`, `unimplemented!`, `unreachable!`, out-of-range slice) is
  modelled by returning `Option.none`; `Option.some` is a normal return.
- Calls into external crates (`bitcoincore_rpc_json` address parsing, `miniscript`
  descriptor parsing/derivation) are modelled by an explicit environment record
  `ExternalEnv` whose fields carry the observable results used by the repository code.
- `BTreeMap<&str, &BlockIdentifier>` is modelled as an association list where insertion
  conses and lookup takes the first (most recent) binding, which matches the map's
  last-write-wins lookup semantics.
-/

namespace Chainhook

/-! ### Hex utilities (hex::decode / hex::encode as used by the repository) -/

/-- Value of one hexadecimal digit, `none` for a non-hex character. -/
def hexDigitVal (c : Char) : Option Nat :=
  if '0' ≤ c ∧ c ≤ '9' then some (c.toNat - '0'.toNat)
  else if 'a' ≤ c ∧ c ≤ 'f' then some (c.toNat - 'a'.toNat + 10)
  else if 'A' ≤ c ∧ c ≤ 'F' then some (c.toNat - 'A'.toNat + 10)
  else none

/-- Model of `Vec::<u8>::from_hex` on a character list: pairs of hex digits to bytes;
`none` on an odd-length or non-hex input. -/
def hexDecodeChars : List Char → Option (List Nat)
  | [] => some []
  | [_] => none
  | hi :: lo :: rest => do
    let h ← hexDigitVal hi
    let l ← hexDigitVal lo
    let r ← hexDecodeChars rest
    pure ((h * 16 + l) :: r)

/-- Model of `Vec::<u8>::from_hex` on a string. -/
def hexDecode (s : String) : Option (List Nat) :=
  hexDecodeChars s.data

/-- Two lowercase hex digits of a byte. -/
def hexEncodeByte (b : Nat) : List Char :=
  [Nat.digitChar (b / 16 % 16), Nat.digitChar (b % 16)]

/-- Model of `hex::encode`: lowercase hex string of a byte list. -/
def hexEncode (bs : List Nat) : String :=
  String.mk ((bs.map hexEncodeByte).flatten)

/-- Rust `str::starts_with`, on strings viewed as character sequences. -/
def strStartsWith (s pre : String) : Bool :=
  List.isPrefixOf pre.data s.data

/-- Rust `str::ends_with`, on strings viewed as character sequences. -/
def strEndsWith (s suffix : String) : Bool :=
  List.isSuffixOf suffix.data s.data

/-- Dropping the first `n` characters of a string. -/
def strDrop (s : String) (n : Nat) : String :=
  String.mk (s.data.drop n)

/-- The length of a string in characters. -/
def strLength (s : String) : Nat :=
  s.data.length

/-- Rust `str::to_lowercase`, on the ASCII data the embedded code handles. -/
def strToLower (s : String) : String :=
  String.mk (s.data.map fun c =>
    if 65 ≤ c.toNat ∧ c.toNat ≤ 90 then Char.ofNat (c.toNat + 32) else c)

/-- Rust `str::strip_prefix("0x").unwrap_or(s)`: drop a leading `0x` when present. -/
def strip0x (s : String) : String :=
  if strStartsWith s "0x" then strDrop s 2 else s

/-- The Rust string slice `s[2..]`: `none` models the out-of-bounds panic when the
string is shorter than two characters. -/
def sliceFrom2 (s : String) : Option String :=
  if 2 ≤ strLength s then some (strDrop s 2) else none

/-! ### Data model (chainhook-types, elided to the fields the embedded code reads) -/

/-- Block identifier `(index, hash)`. -/
structure BlockIdentifier where
  index : Nat
  hash : String
deriving DecidableEq, Repr

/-- Transaction identifier (hash). -/
structure TransactionIdentifier where
  hash : String
deriving DecidableEq, Repr

/-- A transaction input's `previous_output`, restricted to the fields the predicate
evaluator reads (`txid.hash` and `vout`). -/
structure OutPoint where
  txid : TransactionIdentifier
  vout : Nat
deriving DecidableEq, Repr

/-- A transaction input, restricted to `previous_output`. -/
structure TxIn where
  previous_output : OutPoint
deriving DecidableEq, Repr

/-- A transaction output, restricted to `script_pubkey` (a `0x`-prefixed hex string in
the upstream data model). -/
structure TxOut where
  script_pubkey : String
deriving DecidableEq, Repr

/-- The `StacksBaseChainOperation` variants, matched by constructor only; the payloads are
never inspected by the embedded code and are elided. -/
inductive StacksBaseChainOperation where
  | BlockCommitted
  | LeaderRegistered
  | StxTransferred
  | StxLocked
deriving DecidableEq, Repr

/-- Transaction metadata, restricted to the fields the predicate evaluator reads.
Ordinal operations and the brc20 operation are only tested for presence, so their
payloads are elided to `Unit`. -/
structure BitcoinTransactionMetadata where
  inputs : List TxIn
  outputs : List TxOut
  stacks_operations : List StacksBaseChainOperation
  ordinal_operations : List Unit
  brc20_operation : Option Unit
deriving DecidableEq, Repr

/-- A transaction as seen by the evaluator. -/
structure BitcoinTransactionData where
  transaction_identifier : TransactionIdentifier
  metadata : BitcoinTransactionMetadata
deriving DecidableEq, Repr

/-- A block as seen by the evaluator (identifier and ordered transactions; the other
block fields are never read by the embedded code). -/
structure BitcoinBlockData where
  block_identifier : BlockIdentifier
  transactions : List BitcoinTransactionData
deriving DecidableEq, Repr

/-- Payload of `BitcoinChainEvent::ChainUpdatedWithBlocks`. -/
structure BitcoinChainUpdatedWithBlocksData where
  new_blocks : List BitcoinBlockData
deriving DecidableEq, Repr

/-- Payload of `BitcoinChainEvent::ChainUpdatedWithReorg`. -/
structure BitcoinChainUpdatedWithReorgData where
  blocks_to_rollback : List BitcoinBlockData
  blocks_to_apply : List BitcoinBlockData
deriving DecidableEq, Repr

/-- A bitcoin chain event. -/
inductive BitcoinChainEvent where
  | ChainUpdatedWithBlocks (event : BitcoinChainUpdatedWithBlocksData)
  | ChainUpdatedWithReorg (event : BitcoinChainUpdatedWithReorgData)
deriving DecidableEq, Repr

/-- The `BitcoinNetwork` enumeration (chainhook-types). -/
inductive BitcoinNetwork where
  | Mainnet
  | Testnet
  | Regtest
  | Signet
deriving DecidableEq, Repr

/-! ### Predicate algebra (chainhook-sdk types) -/

/-- Modelled from the spec: `MatchingRule` sub-algebra
`StartsWith(p) | EndsWith(p) | Equals(p)` (declared in the sdk types module; its
constructors are pinned by the pattern matches of the embedded evaluator). -/
inductive MatchingRule where
  | StartsWith (pattern : String)
  | EndsWith (pattern : String)
  | Equals (pattern : String)
deriving DecidableEq, Repr

/-- Modelled from the spec: `ExactMatchingRule` is the singleton `Equals`. -/
inductive ExactMatchingRule where
  | Equals (pattern : String)
deriving DecidableEq, Repr

/-- Modelled from the spec: the action algebra
`HttpPost { url, authorization_header } | FileAppend { path } | Noop`.
The embedded functions carry actions without inspecting them. -/
inductive HookAction where
  | HttpPost (url : String) (authorization_header : String)
  | FileAppend (path : String)
  | Noop
deriving DecidableEq, Repr

/-- The `TxinPredicate { txid, vout }` rule. -/
structure TxinPredicate where
  txid : String
  vout : Nat
deriving DecidableEq, Repr

/-- The `DescriptorMatchingRule { expression, range }` rule; a deserialized range satisfies
`range[0] < range[1]` (enforced by `deserialize_descriptor_range`). -/
structure DescriptorMatchingRule where
  expression : String
  range : Option (Nat × Nat)
deriving DecidableEq, Repr

/-- The `InputPredicate` algebra. -/
inductive InputPredicate where
  | Txid (predicate : TxinPredicate)
  | WitnessScript (rule : MatchingRule)
deriving DecidableEq, Repr

/-- The `OutputPredicate` algebra. -/
inductive OutputPredicate where
  | OpReturn (rule : MatchingRule)
  | P2pkh (rule : ExactMatchingRule)
  | P2sh (rule : ExactMatchingRule)
  | P2wpkh (rule : ExactMatchingRule)
  | P2wsh (rule : ExactMatchingRule)
  | Descriptor (rule : DescriptorMatchingRule)
deriving DecidableEq, Repr

/-- The `StacksOperations` predicate variants. -/
inductive StacksOperations where
  | StackerRewarded
  | BlockCommitted
  | LeaderRegistered
  | StxTransferred
  | StxLocked
deriving DecidableEq, Repr

/-- The `OrdinalsMetaProtocol` enumeration. -/
inductive OrdinalsMetaProtocol where
  | All
  | Brc20
deriving DecidableEq, Repr

/-- The `InscriptionFeedData` payload; the `HashSet` of meta protocols is modelled as a list in
iteration order. -/
structure InscriptionFeedData where
  meta_protocols : Option (List OrdinalsMetaProtocol)
deriving DecidableEq, Repr

/-- The `OrdinalOperations` algebra. -/
inductive OrdinalOperations where
  | InscriptionFeed (feed_data : InscriptionFeedData)
deriving DecidableEq, Repr

/-- The `BitcoinPredicateType` sum: the closed predicate algebra. -/
inductive BitcoinPredicateType where
  | Block
  | Txid (rule : ExactMatchingRule)
  | Inputs (predicate : InputPredicate)
  | Outputs (predicate : OutputPredicate)
  | StacksProtocol (operation : StacksOperations)
  | OrdinalsProtocol (operation : OrdinalOperations)
deriving DecidableEq, Repr

/-! ### External library environment -/

/-- Observable result of `Address::from_str(..).assume_checked()` as used by the
repository: the hex encoding of the address's `script_pubkey()` bytes, and whether the
address payload is a `Payload::WitnessProgram`. -/
structure AddressInfo where
  scriptPubkeyHex : String
  isWitnessProgram : Bool

/-- Observable result of `Descriptor::parse_descriptor`: whether the descriptor has a
wildcard, and for each child index the hex encoding of the derived `script_pubkey()`
(`none` models a failing `derived_descriptor(..).unwrap()`). -/
structure DescriptorInfo where
  hasWildcard : Bool
  derive : Nat → Option String

/-- Environment of external-crate functions the evaluator calls. `parseAddress` is
`none` when `Address::from_str` errs; `parseDescriptor` is `none` when
`Descriptor::parse_descriptor` errs (the repository code then panics via `unwrap`). -/
structure ExternalEnv where
  parseAddress : String → Option AddressInfo
  parseDescriptor : String → Option DescriptorInfo

/-! ### OpReturn::from_string and evaluate_transaction_predicate -/

/-- Model of `OpReturn::from_string`. Outer `none` models the panic of
`Vec::<u8>::from_hex(hex).unwrap()` on an invalid hex payload; inner `none` models the
caught `Err("not an OP_RETURN")`; `some (some payload)` is the lowercase hex encoding
of the data, skipping the `0x6a` opcode and the length byte. -/
def opReturnFromString (hex : String) : Option (Option String) :=
  match hexDecode (strip0x hex) with
  | none => none
  | some bytes =>
    match bytes with
    | 0x6a :: _ :: rest => some (some (hexEncode rest))
    | _ => some none

/-- The `encoded_pattern` helper of the OP_RETURN branch: a `0x`-prefixed pattern is
stripped and lowercased; otherwise the pattern's bytes are hex-encoded. -/
def encodedPattern (pattern : String) : String :=
  if strStartsWith pattern "0x" then strToLower (strDrop pattern 2)
  else hexEncode (pattern.data.map Char.toNat)

/-- The output loop of the OP_RETURN branch: decode each output, skip non-OP_RETURN
outputs, and test the payload against the matching rule. `none` models the decode
panic. -/
def evalOpReturnOutputs (rule : MatchingRule) : List TxOut → Option Bool
  | [] => some false
  | output :: rest =>
    match opReturnFromString output.script_pubkey with
    | none => none
    | some none => evalOpReturnOutputs rule rest
    | some (some opret) =>
      match rule with
      | .StartsWith pattern =>
        if strStartsWith opret (encodedPattern pattern) then some true
        else evalOpReturnOutputs rule rest
      | .EndsWith pattern =>
        if strEndsWith opret (encodedPattern pattern) then some true
        else evalOpReturnOutputs rule rest
      | .Equals pattern =>
        if opret = encodedPattern pattern then some true
        else evalOpReturnOutputs rule rest

/-- The output loop shared by the address and descriptor branches: compare
`output.script_pubkey[2..]` with the candidate hex bytes. `none` models the slice
panic on a script shorter than two characters. -/
def matchOutputsAgainst (addressBytes : String) : List TxOut → Option Bool
  | [] => some false
  | output :: rest =>
    match sliceFrom2 output.script_pubkey with
    | none => none
    | some sliced =>
      if sliced = addressBytes then some true
      else matchOutputsAgainst addressBytes rest

/-- The effective derivation range of the descriptor branch: the predicate's range (or
the default `[0,5)`) for a wildcard descriptor, `[0,1)` otherwise. -/
def effectiveRange (hasWildcard : Bool) (range : Option (Nat × Nat)) : Nat × Nat :=
  if hasWildcard then
    match range with
    | some r => r
    | none => (0, 5)
  else (0, 1)

/-- Child indices enumerated by `for i in range[0]..range[1]`. -/
def rangeIndices (r : Nat × Nat) : List Nat :=
  List.range' r.1 (r.2 - r.1)

/-- The index loop of the descriptor branch: derive each child script and match it
against the outputs. `none` models the `derived_descriptor(..).unwrap()` panic and the
slice panic of the inner output loop. -/
def evalDescriptorIndices (info : DescriptorInfo) (outputs : List TxOut) :
    List Nat → Option Bool
  | [] => some false
  | i :: rest =>
    match info.derive i with
    | none => none
    | some scriptPubkey =>
      match matchOutputsAgainst scriptPubkey outputs with
      | none => none
      | some true => some true
      | some false => evalDescriptorIndices info outputs rest

/-- The loop of the `StacksProtocol(BlockCommitted)` branch (also run by the
`StackerRewarded` branch, whose body in the source is identical). -/
def containsBlockCommitted : List StacksBaseChainOperation → Bool
  | [] => false
  | .BlockCommitted :: _ => true
  | _ :: rest => containsBlockCommitted rest

/-- The loop of the `StacksProtocol(LeaderRegistered)` branch. -/
def containsLeaderRegistered : List StacksBaseChainOperation → Bool
  | [] => false
  | .LeaderRegistered :: _ => true
  | _ :: rest => containsLeaderRegistered rest

/-- The loop of the `StacksProtocol(StxTransferred)` branch. -/
def containsStxTransferred : List StacksBaseChainOperation → Bool
  | [] => false
  | .StxTransferred :: _ => true
  | _ :: rest => containsStxTransferred rest

/-- The loop of the `StacksProtocol(StxLocked)` branch. -/
def containsStxLocked : List StacksBaseChainOperation → Bool
  | [] => false
  | .StxLocked :: _ => true
  | _ :: rest => containsStxLocked rest

/-- The loop of the `Inputs(Txid)` branch. -/
def anyInputMatches (predicate : TxinPredicate) : List TxIn → Bool
  | [] => false
  | input :: rest =>
    if input.previous_output.txid.hash = predicate.txid ∧
        input.previous_output.vout = predicate.vout then true
    else anyInputMatches predicate rest

/-- Model of `BitcoinPredicateType::evaluate_transaction_predicate`. `some b` is a normal
boolean return; `none` models a panic (`unwrap` on invalid data, `unimplemented!()` on
the reserved `Inputs(WitnessScript)` variant, out-of-range string slice). -/
def evaluate_transaction_predicate (env : ExternalEnv) (predicate : BitcoinPredicateType)
    (tx : BitcoinTransactionData) : Option Bool :=
  match predicate with
  | .Block => some true
  | .Txid (.Equals txid) => some (decide (tx.transaction_identifier.hash = txid))
  | .Outputs (.OpReturn rule) => evalOpReturnOutputs rule tx.metadata.outputs
  | .Outputs (.P2pkh (.Equals encoded_address))
  | .Outputs (.P2sh (.Equals encoded_address)) =>
    match env.parseAddress encoded_address with
    | none => some false
    | some address => matchOutputsAgainst address.scriptPubkeyHex tx.metadata.outputs
  | .Outputs (.P2wpkh (.Equals encoded_address))
  | .Outputs (.P2wsh (.Equals encoded_address)) =>
    match env.parseAddress encoded_address with
    | none => some false
    | some address =>
      if address.isWitnessProgram then
        matchOutputsAgainst address.scriptPubkeyHex tx.metadata.outputs
      else some false
  | .Outputs (.Descriptor rule) =>
    match env.parseDescriptor rule.expression with
    | none => none
    | some info =>
      evalDescriptorIndices info tx.metadata.outputs
        (rangeIndices (effectiveRange info.hasWildcard rule.range))
  | .Inputs (.Txid predicate) => some (anyInputMatches predicate tx.metadata.inputs)
  | .Inputs (.WitnessScript _) => none
  | .StacksProtocol .StackerRewarded =>
    some (containsBlockCommitted tx.metadata.stacks_operations)
  | .StacksProtocol .BlockCommitted =>
    some (containsBlockCommitted tx.metadata.stacks_operations)
  | .StacksProtocol .LeaderRegistered =>
    some (containsLeaderRegistered tx.metadata.stacks_operations)
  | .StacksProtocol .StxTransferred =>
    some (containsStxTransferred tx.metadata.stacks_operations)
  | .StacksProtocol .StxLocked =>
    some (containsStxLocked tx.metadata.stacks_operations)
  | .OrdinalsProtocol (.InscriptionFeed feed_data) =>
    match feed_data.meta_protocols with
    | some protocols =>
      match protocols with
      | [] => some false
      | .All :: _ => some (!tx.metadata.ordinal_operations.isEmpty)
      | .Brc20 :: _ => some (!tx.metadata.brc20_operation.isNone)
    | none => some (!tx.metadata.ordinal_operations.isEmpty)

/-! ### Predicate instances and the network-map projection -/

/-- The `BitcoinChainhookInstance` record. -/
structure BitcoinChainhookInstance where
  uuid : String
  owner_uuid : Option String
  name : String
  network : BitcoinNetwork
  version : Nat
  blocks : Option (List Nat)
  start_block : Option Nat
  end_block : Option Nat
  expire_after_occurrence : Option Nat
  predicate : BitcoinPredicateType
  action : HookAction
  include_proof : Bool
  include_inputs : Bool
  include_outputs : Bool
  include_witness : Bool
  enabled : Bool
  expired_at : Option Nat
deriving DecidableEq, Repr

/-- The `BitcoinChainhookSpecification` record: the per-network fields of a network-map spec. -/
structure BitcoinChainhookSpecification where
  blocks : Option (List Nat)
  start_block : Option Nat
  end_block : Option Nat
  expire_after_occurrence : Option Nat
  include_proof : Option Bool
  include_inputs : Option Bool
  include_outputs : Option Bool
  include_witness : Option Bool
  predicate : BitcoinPredicateType
  action : HookAction
deriving DecidableEq, Repr

/-- The `BitcoinChainhookSpecificationNetworkMap` envelope; the `BTreeMap` of networks is modelled
as an association list. -/
structure BitcoinChainhookSpecificationNetworkMap where
  uuid : String
  owner_uuid : Option String
  name : String
  version : Nat
  networks : List (BitcoinNetwork × BitcoinChainhookSpecification)
deriving DecidableEq, Repr

/-- Lookup in the association list of networks (`BTreeMap::remove`'s returned value). -/
def networksLookup :
    List (BitcoinNetwork × BitcoinChainhookSpecification) → BitcoinNetwork →
    Option BitcoinChainhookSpecification
  | [], _ => none
  | entry :: rest, network =>
    if entry.1 = network then some entry.2 else networksLookup rest network

/-- Model of `BitcoinChainhookSpecificationNetworkMap::into_specification_for_network`. -/
def into_specification_for_network (map : BitcoinChainhookSpecificationNetworkMap)
    (network : BitcoinNetwork) : Except String BitcoinChainhookInstance :=
  match networksLookup map.networks network with
  | none => .error "Network unknown"
  | some spec =>
    .ok
      { uuid := map.uuid
        owner_uuid := map.owner_uuid
        name := map.name
        network := network
        version := map.version
        blocks := spec.blocks
        start_block := spec.start_block
        end_block := spec.end_block
        expire_after_occurrence := spec.expire_after_occurrence
        predicate := spec.predicate
        action := spec.action
        include_proof := spec.include_proof.getD false
        include_inputs := spec.include_inputs.getD false
        include_outputs := spec.include_outputs.getD false
        include_witness := spec.include_witness.getD false
        enabled := false
        expired_at := none }

/-! ### evaluate_bitcoin_chainhooks_on_chain_event -/

/-- The `BTreeMap<&str, &BlockIdentifier>` maps returned by the chain-event evaluator,
as an association list; insertion conses, lookup takes the most recent binding. -/
abbrev UuidMap := List (String × BlockIdentifier)

/-- Map insertion (`BTreeMap::insert`, last-write-wins under `mapLookup`). -/
def mapInsert (key : String) (value : BlockIdentifier) (m : UuidMap) : UuidMap :=
  (key, value) :: m

/-- Map lookup (`BTreeMap::get`): first (most recent) binding of the key. -/
def mapLookup (key : String) : UuidMap → Option BlockIdentifier
  | [] => none
  | entry :: rest => if entry.1 = key then some entry.2 else mapLookup key rest

/-- The `BitcoinTriggerChainhook` record. -/
structure BitcoinTriggerChainhook where
  chainhook : BitcoinChainhookInstance
  apply : List (List BitcoinTransactionData × BitcoinBlockData)
  rollback : List (List BitcoinTransactionData × BitcoinBlockData)
deriving DecidableEq, Repr

/-- The bound check `end_block >= block.block_identifier.index`, where a missing
`end_block` defaults to `u64::MAX` and hence always passes. -/
def endBlockGe (end_block : Option Nat) (index : Nat) : Bool :=
  match end_block with
  | none => true
  | some e => index ≤ e

/-- The hits loop: `for tx in block.transactions { if predicate matches { push } }`.
`none` propagates an evaluation panic. -/
def evalHits (env : ExternalEnv) (predicate : BitcoinPredicateType) :
    List BitcoinTransactionData → Option (List BitcoinTransactionData)
  | [] => some []
  | tx :: rest =>
    match evaluate_transaction_predicate env predicate tx with
    | none => none
    | some true => (evalHits env predicate rest).map (tx :: ·)
    | some false => evalHits env predicate rest

/-- The per-chainhook loop over applied blocks (the body of the
`ChainUpdatedWithBlocks` branch, also run on `blocks_to_apply` in the reorg branch):
record the block as evaluated, then either accumulate hits (within `end_block`) or
record the block as expired. Returns the updated evaluated and expired maps and the
accumulated `apply` list. -/
def processApplyBlocks (env : ExternalEnv) (chainhook : BitcoinChainhookInstance) :
    List BitcoinBlockData → UuidMap → UuidMap →
    List (List BitcoinTransactionData × BitcoinBlockData) →
    Option (UuidMap × UuidMap ×
      List (List BitcoinTransactionData × BitcoinBlockData))
  | [], evaluated, expired, apply => some (evaluated, expired, apply)
  | block :: rest, evaluated, expired, apply =>
    let evaluated1 := mapInsert chainhook.uuid block.block_identifier evaluated
    if endBlockGe chainhook.end_block block.block_identifier.index then
      match evalHits env chainhook.predicate block.transactions with
      | none => none
      | some hits =>
        processApplyBlocks env chainhook rest evaluated1 expired
          (if 0 < hits.length then apply ++ [(hits, block)] else apply)
    else
      processApplyBlocks env chainhook rest evaluated1
        (mapInsert chainhook.uuid block.block_identifier expired) apply

/-- The per-chainhook loop over `blocks_to_rollback` of the reorg branch: accumulate
rollback hits (within `end_block`) or record the block as expired; the evaluated map
is not touched. -/
def processRollbackBlocks (env : ExternalEnv) (chainhook : BitcoinChainhookInstance) :
    List BitcoinBlockData → UuidMap →
    List (List BitcoinTransactionData × BitcoinBlockData) →
    Option (UuidMap × List (List BitcoinTransactionData × BitcoinBlockData))
  | [], expired, rollback => some (expired, rollback)
  | block :: rest, expired, rollback =>
    if endBlockGe chainhook.end_block block.block_identifier.index then
      match evalHits env chainhook.predicate block.transactions with
      | none => none
      | some hits =>
        processRollbackBlocks env chainhook rest expired
          (if 0 < hits.length then rollback ++ [(hits, block)] else rollback)
    else
      processRollbackBlocks env chainhook rest
        (mapInsert chainhook.uuid block.block_identifier expired) rollback

/-- The chainhook loop of the `ChainUpdatedWithBlocks` branch: a trigger (with an
empty rollback list) is pushed only when `apply` is non-empty. -/
def processHooksBlocks (env : ExternalEnv) :
    List BitcoinChainhookInstance → BitcoinChainUpdatedWithBlocksData →
    List BitcoinTriggerChainhook → UuidMap → UuidMap →
    Option (List BitcoinTriggerChainhook × UuidMap × UuidMap)
  | [], _, triggered, evaluated, expired => some (triggered, evaluated, expired)
  | chainhook :: rest, event, triggered, evaluated, expired =>
    match processApplyBlocks env chainhook event.new_blocks evaluated expired [] with
    | none => none
    | some (evaluated1, expired1, apply) =>
      processHooksBlocks env rest event
        (if apply.isEmpty then triggered
         else triggered ++ [{ chainhook := chainhook, apply := apply, rollback := [] }])
        evaluated1 expired1

/-- The chainhook loop of the `ChainUpdatedWithReorg` branch: rollback blocks first,
then apply blocks; a trigger is pushed when `apply` or `rollback` is non-empty. -/
def processHooksReorg (env : ExternalEnv) :
    List BitcoinChainhookInstance → BitcoinChainUpdatedWithReorgData →
    List BitcoinTriggerChainhook → UuidMap → UuidMap →
    Option (List BitcoinTriggerChainhook × UuidMap × UuidMap)
  | [], _, triggered, evaluated, expired => some (triggered, evaluated, expired)
  | chainhook :: rest, event, triggered, evaluated, expired =>
    match processRollbackBlocks env chainhook event.blocks_to_rollback expired [] with
    | none => none
    | some (expired1, rollback) =>
      match processApplyBlocks env chainhook event.blocks_to_apply evaluated expired1 [] with
      | none => none
      | some (evaluated1, expired2, apply) =>
        processHooksReorg env rest event
          (if apply.isEmpty ∧ rollback.isEmpty then triggered
           else triggered ++
             [{ chainhook := chainhook, apply := apply, rollback := rollback }])
          evaluated1 expired2

/-- Model of `evaluate_bitcoin_chainhooks_on_chain_event`: returns the triggered predicates and
the evaluated and expired maps (`none` propagates an evaluation panic). -/
def evaluate_bitcoin_chainhooks_on_chain_event (env : ExternalEnv)
    (chain_event : BitcoinChainEvent)
    (active_chainhooks : List BitcoinChainhookInstance) :
    Option (List BitcoinTriggerChainhook × UuidMap × UuidMap) :=
  match chain_event with
  | .ChainUpdatedWithBlocks event => processHooksBlocks env active_chainhooks event [] [] []
  | .ChainUpdatedWithReorg event => processHooksReorg env active_chainhooks event [] [] []

/-! ### Status store (chainhook-cli service) -/

/-- The `ScanningData` record. -/
structure ScanningData where
  number_of_blocks_to_scan : Nat
  number_of_blocks_evaluated : Nat
  number_of_times_triggered : Nat
  last_occurrence : Nat
  last_evaluated_block_height : Nat
deriving DecidableEq, Repr

/-- The `StreamingData` record. -/
structure StreamingData where
  last_occurrence : Nat
  last_evaluation : Nat
  number_of_times_triggered : Nat
  number_of_blocks_evaluated : Nat
  last_evaluated_block_height : Nat
deriving DecidableEq, Repr

/-- The `ExpiredData` record. -/
structure ExpiredData where
  number_of_blocks_evaluated : Nat
  number_of_times_triggered : Nat
  last_occurrence : Nat
  last_evaluated_block_height : Nat
deriving DecidableEq, Repr

/-- The `PredicateStatus` variants. -/
inductive PredicateStatus where
  | Scanning (data : ScanningData)
  | Streaming (data : StreamingData)
  | Expired (data : ExpiredData)
  | Interrupted (reason : String)
  | New
deriving DecidableEq, Repr

/-- The `StreamingDataType` variants. -/
inductive StreamingDataType where
  | Occurrence (last_triggered_height : Nat) (triggered_count : Nat)
  | Evaluation (last_evaluated_height : Nat) (evaluated_count : Nat)
  | FinishedScanning
deriving DecidableEq, Repr

/-- Model of `set_predicate_streaming_status`, as a pure merge of the previously stored status
(`none` when the key has no parseable status) into the stored `Streaming` status.
`none` as a result models the `unreachable!()` panic on a `New` or `Interrupted`
prior status. -/
def set_predicate_streaming_status (streaming_data_type : StreamingDataType)
    (now_ms : Nat) (prior : Option PredicateStatus) : Option PredicateStatus :=
  match
    (match prior with
     | some (.Streaming d) =>
       some (d.last_occurrence, d.number_of_blocks_evaluated,
         d.number_of_times_triggered, d.last_evaluated_block_height)
     | some (.Scanning d) =>
       some (d.last_occurrence, d.number_of_blocks_evaluated,
         d.number_of_times_triggered, d.last_evaluated_block_height)
     | some (.Expired d) =>
       some (d.last_occurrence, d.number_of_blocks_evaluated,
         d.number_of_times_triggered, d.last_evaluated_block_height)
     | some .New => none
     | some (.Interrupted _) => none
     | none => some (0, 0, 0, 0) : Option (Nat × Nat × Nat × Nat))
  with
  | none => none
  | some (last_occurrence, number_of_blocks_evaluated, number_of_times_triggered,
      last_evaluated_block_height) =>
    match streaming_data_type with
    | .Occurrence last_triggered_height triggered_count =>
      some (.Streaming
        { last_occurrence := now_ms
          last_evaluation := now_ms
          number_of_times_triggered := number_of_times_triggered + triggered_count
          number_of_blocks_evaluated := number_of_blocks_evaluated + triggered_count
          last_evaluated_block_height := last_triggered_height })
    | .Evaluation last_evaluated_height evaluated_count =>
      some (.Streaming
        { last_occurrence := last_occurrence
          last_evaluation := now_ms
          number_of_times_triggered := number_of_times_triggered
          number_of_blocks_evaluated := number_of_blocks_evaluated + evaluated_count
          last_evaluated_block_height := last_evaluated_height })
    | .FinishedScanning =>
      some (.Streaming
        { last_occurrence := last_occurrence
          last_evaluation := now_ms
          number_of_times_triggered := number_of_times_triggered
          number_of_blocks_evaluated := number_of_blocks_evaluated
          last_evaluated_block_height := last_evaluated_block_height })

/-- Model of `set_predicate_scanning_status`, as a pure merge: the counters are taken from the
arguments, `last_occurrence` from the prior status (refreshed to `now_ms` when
`number_of_times_triggered` strictly increased). `none` models the `unreachable!()`
panic on a `Streaming` or `Interrupted` prior status. -/
def set_predicate_scanning_status (number_of_blocks_to_scan : Nat)
    (number_of_blocks_evaluated : Nat) (number_of_times_triggered : Nat)
    (current_block_height : Nat) (now_ms : Nat) (prior : Option PredicateStatus) :
    Option PredicateStatus :=
  match
    (match prior with
     | some (.Scanning d) =>
       some (if d.number_of_times_triggered < number_of_times_triggered then now_ms
         else d.last_occurrence)
     | some (.Expired d) =>
       some (if d.number_of_times_triggered < number_of_times_triggered then now_ms
         else d.last_occurrence)
     | some .New => some (if 0 < number_of_times_triggered then now_ms else 0)
     | some (.Streaming _) => none
     | some (.Interrupted _) => none
     | none => some 0 : Option Nat)
  with
  | none => none
  | some last_occurrence =>
    some (.Scanning
      { number_of_blocks_to_scan := number_of_blocks_to_scan
        number_of_blocks_evaluated := number_of_blocks_evaluated
        number_of_times_triggered := number_of_times_triggered
        last_occurrence := last_occurrence
        last_evaluated_block_height := current_block_height })

/-- Model of `set_expired_status`, as a pure merge: from a counted prior status the evaluated
counter grows by `number_of_new_blocks_evaluated` and the other counters carry over;
from `New` or no prior status all counters are `(0, 0, 0)`. `none` models the
`unreachable!()` panic on an `Interrupted` prior status. -/
def set_expired_status (number_of_new_blocks_evaluated : Nat)
    (last_evaluated_block_height : Nat) (prior : Option PredicateStatus) :
    Option PredicateStatus :=
  match
    (match prior with
     | some (.Scanning d) =>
       some (d.number_of_blocks_evaluated + number_of_new_blocks_evaluated,
         d.number_of_times_triggered, d.last_occurrence)
     | some .New => some (0, 0, 0)
     | some (.Streaming d) =>
       some (d.number_of_blocks_evaluated + number_of_new_blocks_evaluated,
         d.number_of_times_triggered, d.last_occurrence)
     | some (.Expired d) =>
       some (d.number_of_blocks_evaluated + number_of_new_blocks_evaluated,
         d.number_of_times_triggered, d.last_occurrence)
     | some (.Interrupted _) => none
     | none => some (0, 0, 0) : Option (Nat × Nat × Nat))
  with
  | none => none
  | some (number_of_blocks_evaluated, number_of_times_triggered, last_occurrence) =>
    some (.Expired
      { number_of_blocks_evaluated := number_of_blocks_evaluated
        number_of_times_triggered := number_of_times_triggered
        last_occurrence := last_occurrence
        last_evaluated_block_height := last_evaluated_block_height })

/-- The `number_of_blocks_evaluated` counter of a stored status (0 for the
counter-less `New` and `Interrupted` statuses). -/
def blocksEvaluatedOf : PredicateStatus → Nat
  | .Scanning d => d.number_of_blocks_evaluated
  | .Streaming d => d.number_of_blocks_evaluated
  | .Expired d => d.number_of_blocks_evaluated
  | .Interrupted _ => 0
  | .New => 0

/-- The `number_of_times_triggered` counter of a stored status. -/
def timesTriggeredOf : PredicateStatus → Nat
  | .Scanning d => d.number_of_times_triggered
  | .Streaming d => d.number_of_times_triggered
  | .Expired d => d.number_of_times_triggered
  | .Interrupted _ => 0
  | .New => 0

/-- The `last_occurrence` timestamp of a stored status. -/
def lastOccurrenceOf : PredicateStatus → Nat
  | .Scanning d => d.last_occurrence
  | .Streaming d => d.last_occurrence
  | .Expired d => d.last_occurrence
  | .Interrupted _ => 0
  | .New => 0

/-- The map `blocksEvaluatedOf` lifted to an optional status. -/
def blocksEvaluatedOfOpt : Option PredicateStatus → Nat
  | none => 0
  | some status => blocksEvaluatedOf status

/-- The map `timesTriggeredOf` lifted to an optional status. -/
def timesTriggeredOfOpt : Option PredicateStatus → Nat
  | none => 0
  | some status => timesTriggeredOf status

/-- The map `lastOccurrenceOf` lifted to an optional status. -/
def lastOccurrenceOfOpt : Option PredicateStatus → Nat
  | none => 0
  | some status => lastOccurrenceOf status

/-! ### Archive freshness decision (chainhook-cli archive) -/

/-- Model of `u8::to_ascii_lowercase` mapped over a byte string. -/
def toAsciiLowercaseBytes (bytes : List Nat) : List Nat :=
  bytes.map (fun b => if 65 ≤ b ∧ b ≤ 90 then b + 32 else b)

/-- The freshness test of `download_stacks_dataset_if_required`:
`remote.to_ascii_lowercase().starts_with(&local[0..32])`. `none` models the slice
panic when the local SHA file holds fewer than 32 bytes. -/
def local_version_is_latest (localSha remoteSha : List Nat) : Option Bool :=
  if 32 ≤ localSha.length then
    some (List.isPrefixOf (localSha.take 32) (toAsciiLowercaseBytes remoteSha))
  else none

/-- The decision `should_download = (local_version_is_latest == false)`. -/
def should_download (localSha remoteSha : List Nat) : Option Bool :=
  (local_version_is_latest localSha remoteSha).map (fun latest => !latest)

/-- Modelled from the spec: the file is up to date iff the local SHA's 32-character
prefix is a case-insensitive prefix of the remote SHA bytes (both sides case-folded). -/
def spec_up_to_date (localSha remoteSha : List Nat) : Bool :=
  List.isPrefixOf (toAsciiLowercaseBytes (localSha.take 32))
    (toAsciiLowercaseBytes remoteSha)

/-! ### Registration-time well-formedness and totality side conditions -/

/-- A predicate that is well-formed at registration time: no reserved variant
(`Inputs(WitnessScript)`), and a valid descriptor range (`range[0] < range[1]`, the
condition `deserialize_descriptor_range` enforces). -/
def predicateWellFormed : BitcoinPredicateType → Bool
  | .Inputs (.WitnessScript _) => false
  | .Outputs (.Descriptor rule) =>
    match rule.range with
    | some r => decide (r.1 < r.2)
    | none => true
  | _ => true

/-- Every output of the transaction carries a well-formed script: its
`script_pubkey` is valid hex (after an optional `0x` prefix) and is at least two
characters long. -/
def outputsHexOk (tx : BitcoinTransactionData) : Bool :=
  tx.metadata.outputs.all fun output =>
    (hexDecode (strip0x output.script_pubkey)).isSome &&
      decide (2 ≤ strLength output.script_pubkey)

/-- For a descriptor predicate: the external descriptor parser accepts the expression
and every derivation over the effective range succeeds. Trivial for the other
predicate variants. -/
def descriptorEnvOk (env : ExternalEnv) : BitcoinPredicateType → Prop
  | .Outputs (.Descriptor rule) =>
    ∃ info, env.parseDescriptor rule.expression = some info ∧
      ∀ i ∈ rangeIndices (effectiveRange info.hasWildcard rule.range),
        (info.derive i).isSome = true
  | _ => True

/-! ### Concrete test fixtures for counterexamples and witnesses -/

/-- Environment whose external address and descriptor parsers reject everything. -/
def trivialEnv : ExternalEnv :=
  { parseAddress := fun _ => none, parseDescriptor := fun _ => none }

/-- A transaction with no inputs, outputs or operations. -/
def sampleTx : BitcoinTransactionData :=
  { transaction_identifier := { hash := "aa" }
    metadata :=
      { inputs := []
        outputs := []
        stacks_operations := []
        ordinal_operations := []
        brc20_operation := none } }

/-- A minimal chainhook instance fixture over the given uuid, end block and
predicate. -/
def sampleHook (uuid : String) (end_block : Option Nat)
    (predicate : BitcoinPredicateType) : BitcoinChainhookInstance :=
  { uuid := uuid
    owner_uuid := none
    name := "hook"
    network := .Regtest
    version := 1
    blocks := none
    start_block := none
    end_block := end_block
    expire_after_occurrence := none
    predicate := predicate
    action := .Noop
    include_proof := false
    include_inputs := false
    include_outputs := false
    include_witness := false
    enabled := false
    expired_at := none }

/-- Block at height 11 used by the disjointness counterexample. -/
def c1Block : BitcoinBlockData :=
  { block_identifier := { index := 11, hash := "b11" }, transactions := [sampleTx] }

/-- An applied-blocks event whose single block is past the predicate's end block. -/
def c1Event : BitcoinChainEvent :=
  .ChainUpdatedWithBlocks { new_blocks := [c1Block] }

/-- Match-everything predicate with `end_block = 10`. -/
def c1Hook : BitcoinChainhookInstance := sampleHook "p1" (some 10) .Block

/-- A transaction whose single output carries a non-hex `script_pubkey`. -/
def c2BadTx : BitcoinTransactionData :=
  { transaction_identifier := { hash := "bb" }
    metadata :=
      { inputs := []
        outputs := [{ script_pubkey := "zz" }]
        stacks_operations := []
        ordinal_operations := []
        brc20_operation := none } }

/-- A transaction with a well-formed OP_RETURN output. -/
def c2GoodTx : BitcoinTransactionData :=
  { transaction_identifier := { hash := "cc" }
    metadata :=
      { inputs := []
        outputs := [{ script_pubkey := "0x6a02ffff" }]
        stacks_operations := []
        ordinal_operations := []
        brc20_operation := none } }

/-- Block at height 5 used by the trigger-coverage counterexample. -/
def c3Block : BitcoinBlockData :=
  { block_identifier := { index := 5, hash := "b5" }, transactions := [sampleTx] }

/-- A reorg event that only rolls blocks back. -/
def c3Event : BitcoinChainEvent :=
  .ChainUpdatedWithReorg { blocks_to_rollback := [c3Block], blocks_to_apply := [] }

/-- Match-everything predicate with no end block. -/
def c3Hook : BitcoinChainhookInstance := sampleHook "p2" none .Block

/-- Local SHA file bytes `ABCDABCD...` (32 uppercase characters). -/
def c5LocalSha : List Nat := (List.replicate 8 [65, 66, 67, 68]).flatten

/-- Remote SHA body bytes `abcdabcd...` (32 lowercase characters). -/
def c5RemoteSha : List Nat := (List.replicate 8 [97, 98, 99, 100]).flatten

/-- Block at height 1 used by the applied-blocks trigger witness. -/
def c10Block : BitcoinBlockData :=
  { block_identifier := { index := 1, hash := "b1" }, transactions := [sampleTx] }

/-- An applied-blocks event with one matching block. -/
def c10Event : BitcoinChainEvent :=
  .ChainUpdatedWithBlocks { new_blocks := [c10Block] }

/-- Match-everything predicate with no end block. -/
def c10Hook : BitcoinChainhookInstance := sampleHook "p3" none .Block

/-- Result of the chain-event evaluator on `c1Event`. -/
def c1Result : List BitcoinTriggerChainhook × UuidMap × UuidMap :=
  ([], [("p1", { index := 11, hash := "b11" })], [("p1", { index := 11, hash := "b11" })])

/-- The trigger produced by `c10Event` with `c10Hook`. -/
def c10Trigger : BitcoinTriggerChainhook :=
  { chainhook := c10Hook, apply := [([sampleTx], c10Block)], rollback := [] }

/-- Result of the chain-event evaluator on `c10Event`. -/
def c10Result : List BitcoinTriggerChainhook × UuidMap × UuidMap :=
  ([c10Trigger], [("p3", { index := 1, hash := "b1" })], [])

/-! ## Lemmas about the uuid maps -/

theorem mapLookup_insert (u k : String) (v : BlockIdentifier) (m : UuidMap) :
    mapLookup u (mapInsert k v m) = if k = u then some v else mapLookup u m := rfl

theorem mapLookup_insert_isSome (u k : String) (v : BlockIdentifier) (m : UuidMap)
    (h : (mapLookup u m).isSome = true) :
    (mapLookup u (mapInsert k v m)).isSome = true := by
  rw [mapLookup_insert]
  split
  · rfl
  · exact h

theorem mapLookup_insert_self (k : String) (v : BlockIdentifier) (m : UuidMap) :
    mapLookup k (mapInsert k v m) = some v := by
  rw [mapLookup_insert]
  simp

/-! ## Invariants of the chain-event evaluator loops -/

theorem processApplyBlocks_nil (env : ExternalEnv) (hook : BitcoinChainhookInstance)
    (ev ex : UuidMap) (ap : List (List BitcoinTransactionData × BitcoinBlockData)) :
    processApplyBlocks env hook [] ev ex ap = some (ev, ex, ap) := rfl

/-- The applied-blocks loop only grows the evaluated map: any key present before is
present after. -/
theorem processApplyBlocks_ev_mono (env : ExternalEnv) (hook : BitcoinChainhookInstance) :
    ∀ (blocks : List BitcoinBlockData) (ev ex : UuidMap)
      (ap : List (List BitcoinTransactionData × BitcoinBlockData))
      (ev' ex' : UuidMap) (ap' : List (List BitcoinTransactionData × BitcoinBlockData)),
      processApplyBlocks env hook blocks ev ex ap = some (ev', ex', ap') →
      ∀ u, (mapLookup u ev).isSome = true → (mapLookup u ev').isSome = true := by
  intro blocks
  induction blocks with
  | nil =>
    intro ev ex ap ev' ex' ap' h u hu
    simp only [processApplyBlocks_nil, Option.some.injEq, Prod.mk.injEq] at h
    obtain ⟨h1, _, _⟩ := h
    subst h1
    exact hu
  | cons b rest ih =>
    intro ev ex ap ev' ex' ap' h u hu
    simp only [processApplyBlocks] at h
    split at h
    · split at h
      · exact Option.noConfusion h
      · exact ih _ _ _ _ _ _ h u (mapLookup_insert_isSome _ _ _ _ hu)
    · exact ih _ _ _ _ _ _ h u (mapLookup_insert_isSome _ _ _ _ hu)

/-- After the applied-blocks loop processed at least one block, the chainhook's uuid
is a key of the evaluated map. -/
theorem processApplyBlocks_uuid_mem (env : ExternalEnv) (hook : BitcoinChainhookInstance)
    (b : BitcoinBlockData) (rest : List BitcoinBlockData) (ev ex : UuidMap)
    (ap : List (List BitcoinTransactionData × BitcoinBlockData))
    (ev' ex' : UuidMap) (ap' : List (List BitcoinTransactionData × BitcoinBlockData))
    (h : processApplyBlocks env hook (b :: rest) ev ex ap = some (ev', ex', ap')) :
    (mapLookup hook.uuid ev').isSome = true := by
  simp only [processApplyBlocks] at h
  split at h
  · split at h
    · exact Option.noConfusion h
    · exact processApplyBlocks_ev_mono env hook rest _ _ _ _ _ _ h hook.uuid
        (by rw [mapLookup_insert_self]; rfl)
  · exact processApplyBlocks_ev_mono env hook rest _ _ _ _ _ _ h hook.uuid
      (by rw [mapLookup_insert_self]; rfl)

/-- The applied-blocks loop preserves the invariant that every key of the expired map
is a key of the evaluated map (every block is inserted into the evaluated map before
the expiry check can insert it into the expired map). -/
theorem processApplyBlocks_expired_sub (env : ExternalEnv)
    (hook : BitcoinChainhookInstance) :
    ∀ (blocks : List BitcoinBlockData) (ev ex : UuidMap)
      (ap : List (List BitcoinTransactionData × BitcoinBlockData))
      (ev' ex' : UuidMap) (ap' : List (List BitcoinTransactionData × BitcoinBlockData)),
      processApplyBlocks env hook blocks ev ex ap = some (ev', ex', ap') →
      (∀ u, (mapLookup u ex).isSome = true → (mapLookup u ev).isSome = true) →
      ∀ u, (mapLookup u ex').isSome = true → (mapLookup u ev').isSome = true := by
  intro blocks
  induction blocks with
  | nil =>
    intro ev ex ap ev' ex' ap' h hinv u hu
    simp only [processApplyBlocks_nil, Option.some.injEq, Prod.mk.injEq] at h
    obtain ⟨h1, h2, _⟩ := h
    subst h1
    subst h2
    exact hinv u hu
  | cons b rest ih =>
    intro ev ex ap ev' ex' ap' h hinv u hu
    simp only [processApplyBlocks] at h
    split at h
    · split at h
      · exact Option.noConfusion h
      · exact ih _ _ _ _ _ _ h
          (fun v hv => mapLookup_insert_isSome _ _ _ _ (hinv v hv)) u hu
    · refine ih _ _ _ _ _ _ h ?_ u hu
      intro v hv
      rw [mapLookup_insert] at hv
      rw [mapLookup_insert]
      by_cases hkv : hook.uuid = v
      · rw [if_pos hkv]
        rfl
      · rw [if_neg hkv] at hv
        rw [if_neg hkv]
        exact hinv v hv

/-- The chainhook loop of the applied-blocks branch preserves the expired-implies-
evaluated key invariant. -/
theorem processHooksBlocks_expired_sub (env : ExternalEnv)
    (event : BitcoinChainUpdatedWithBlocksData) :
    ∀ (hooks : List BitcoinChainhookInstance) (trig : List BitcoinTriggerChainhook)
      (ev ex : UuidMap) (trig' : List BitcoinTriggerChainhook) (ev' ex' : UuidMap),
      processHooksBlocks env hooks event trig ev ex = some (trig', ev', ex') →
      (∀ u, (mapLookup u ex).isSome = true → (mapLookup u ev).isSome = true) →
      ∀ u, (mapLookup u ex').isSome = true → (mapLookup u ev').isSome = true := by
  intro hooks
  induction hooks with
  | nil =>
    intro trig ev ex trig' ev' ex' h hinv u hu
    simp only [processHooksBlocks, Option.some.injEq, Prod.mk.injEq] at h
    obtain ⟨_, h2, h3⟩ := h
    subst h2
    subst h3
    exact hinv u hu
  | cons hook rest ih =>
    intro trig ev ex trig' ev' ex' h hinv u hu
    simp only [processHooksBlocks] at h
    split at h
    · exact Option.noConfusion h
    · next ev1 ex1 apply1 heq =>
      exact ih _ _ _ _ _ _ h
        (processApplyBlocks_expired_sub env hook _ _ _ _ _ _ _ heq hinv) u hu

/-- C1 counterexample: with a predicate whose `end_block` is 10 and an applied-blocks
event carrying one block at height 11, the evaluator records the predicate as expired
at that block and ALSO as evaluated at the very same block (`evaluated_predicates` is
populated before the expiry check), so expired is not disjoint from evaluated. -/
theorem c1_counterexample :
    (evaluate_bitcoin_chainhooks_on_chain_event trivialEnv c1Event [c1Hook]).map
        (fun res => (mapLookup "p1" res.2.2, mapLookup "p1" res.2.1)) =
      some (some { index := 11, hash := "b11" }, some { index := 11, hash := "b11" }) := by
  decide

/-- C1 (amended): for an applied-blocks event, far from being disjoint from the
evaluated map, every predicate recorded in the expired map is also recorded in the
evaluated map (the evaluator inserts each applied block into the evaluated map before
the expiry check). -/
theorem c1_amended (env : ExternalEnv) (event : BitcoinChainUpdatedWithBlocksData)
    (hooks : List BitcoinChainhookInstance)
    (res : List BitcoinTriggerChainhook × UuidMap × UuidMap)
    (hres : evaluate_bitcoin_chainhooks_on_chain_event env
      (.ChainUpdatedWithBlocks event) hooks = some res)
    (u : String) (B : BlockIdentifier) (hexp : mapLookup u res.2.2 = some B) :
    ∃ B2, mapLookup u res.2.1 = some B2 := by
  obtain ⟨trig, ev, ex⟩ := res
  simp only [evaluate_bitcoin_chainhooks_on_chain_event] at hres
  have h := processHooksBlocks_expired_sub env event hooks [] [] [] trig ev ex hres
    (fun v hv => by simp [mapLookup] at hv)
  exact Option.isSome_iff_exists.mp (h u (by rw [hexp]; rfl))

/-- Witness for `c1_amended` at the concrete inputs of the counterexample. -/
theorem c1_amended_witness : ∃ B2, mapLookup "p1" c1Result.2.1 = some B2 :=
  c1_amended trivialEnv { new_blocks := [c1Block] } [c1Hook] c1Result (by decide) "p1"
    { index := 11, hash := "b11" } (by decide)

/-- The chainhook loop of the applied-blocks branch: every trigger whose apply list is
non-empty has its uuid in the evaluated map. -/
theorem processHooksBlocks_trigger_cov (env : ExternalEnv)
    (event : BitcoinChainUpdatedWithBlocksData) :
    ∀ (hooks : List BitcoinChainhookInstance) (trig : List BitcoinTriggerChainhook)
      (ev ex : UuidMap) (trig' : List BitcoinTriggerChainhook) (ev' ex' : UuidMap),
      processHooksBlocks env hooks event trig ev ex = some (trig', ev', ex') →
      (∀ t ∈ trig, t.apply ≠ [] → (mapLookup t.chainhook.uuid ev).isSome = true) →
      ∀ t ∈ trig', t.apply ≠ [] → (mapLookup t.chainhook.uuid ev').isSome = true := by
  intro hooks
  induction hooks with
  | nil =>
    intro trig ev ex trig' ev' ex' h hinv t ht hap
    simp only [processHooksBlocks, Option.some.injEq, Prod.mk.injEq] at h
    obtain ⟨h1, h2, _⟩ := h
    subst h1
    subst h2
    exact hinv t ht hap
  | cons hook rest ih =>
    intro trig ev ex trig' ev' ex' h hinv t ht hap
    simp only [processHooksBlocks] at h
    split at h
    · exact Option.noConfusion h
    · next ev1 ex1 apply1 heq =>
      refine ih _ _ _ _ _ _ h ?_ t ht hap
      intro s hs hsap
      by_cases hemp : apply1.isEmpty
      · rw [if_pos hemp] at hs
        exact processApplyBlocks_ev_mono env hook _ _ _ _ _ _ _ heq _ (hinv s hs hsap)
      · rw [if_neg hemp] at hs
        rcases List.mem_append.mp hs with hold | hnew
        · exact processApplyBlocks_ev_mono env hook _ _ _ _ _ _ _ heq _ (hinv s hold hsap)
        · have hseq : s = { chainhook := hook, apply := apply1, rollback := [] } :=
            List.mem_singleton.mp hnew
          subst hseq
          cases hnb : event.new_blocks with
          | nil =>
            rw [hnb, processApplyBlocks_nil] at heq
            simp only [Option.some.injEq, Prod.mk.injEq] at heq
            obtain ⟨_, _, h3⟩ := heq
            exact absurd h3.symm hsap
          | cons b bs =>
            rw [hnb] at heq
            exact processApplyBlocks_uuid_mem env hook b bs _ _ _ _ _ _ heq

/-- The chainhook loop of the reorg branch: every trigger whose apply list is
non-empty has its uuid in the evaluated map (rollback blocks never touch the
evaluated map, so a rollback-only trigger carries no such guarantee). -/
theorem processHooksReorg_trigger_cov (env : ExternalEnv)
    (event : BitcoinChainUpdatedWithReorgData) :
    ∀ (hooks : List BitcoinChainhookInstance) (trig : List BitcoinTriggerChainhook)
      (ev ex : UuidMap) (trig' : List BitcoinTriggerChainhook) (ev' ex' : UuidMap),
      processHooksReorg env hooks event trig ev ex = some (trig', ev', ex') →
      (∀ t ∈ trig, t.apply ≠ [] → (mapLookup t.chainhook.uuid ev).isSome = true) →
      ∀ t ∈ trig', t.apply ≠ [] → (mapLookup t.chainhook.uuid ev').isSome = true := by
  intro hooks
  induction hooks with
  | nil =>
    intro trig ev ex trig' ev' ex' h hinv t ht hap
    simp only [processHooksReorg, Option.some.injEq, Prod.mk.injEq] at h
    obtain ⟨h1, h2, _⟩ := h
    subst h1
    subst h2
    exact hinv t ht hap
  | cons hook rest ih =>
    intro trig ev ex trig' ev' ex' h hinv t ht hap
    simp only [processHooksReorg] at h
    split at h
    · exact Option.noConfusion h
    · next ex1 rollback1 heq1 =>
      split at h
      · exact Option.noConfusion h
      · next ev1 ex2 apply1 heq2 =>
        refine ih _ _ _ _ _ _ h ?_ t ht hap
        intro s hs hsap
        by_cases hemp : apply1.isEmpty ∧ rollback1.isEmpty
        · rw [if_pos hemp] at hs
          exact processApplyBlocks_ev_mono env hook _ _ _ _ _ _ _ heq2 _ (hinv s hs hsap)
        · rw [if_neg hemp] at hs
          rcases List.mem_append.mp hs with hold | hnew
          · exact processApplyBlocks_ev_mono env hook _ _ _ _ _ _ _ heq2 _ (hinv s hold hsap)
          · have hseq : s = { chainhook := hook, apply := apply1, rollback := rollback1 } :=
              List.mem_singleton.mp hnew
            subst hseq
            cases hnb : event.blocks_to_apply with
            | nil =>
              rw [hnb, processApplyBlocks_nil] at heq2
              simp only [Option.some.injEq, Prod.mk.injEq] at heq2
              obtain ⟨_, _, h3⟩ := heq2
              exact absurd h3.symm hsap
            | cons b bs =>
              rw [hnb] at heq2
              exact processApplyBlocks_uuid_mem env hook b bs _ _ _ _ _ _ heq2

/-- C3 counterexample: a reorg event that only rolls back blocks produces a trigger
for the match-everything predicate while the evaluated map stays empty — a triggered
predicate that is NOT in the evaluated map. -/
theorem c3_counterexample :
    (evaluate_bitcoin_chainhooks_on_chain_event trivialEnv c3Event [c3Hook]).map
        (fun res => (res.1.map (fun t => t.chainhook.uuid), mapLookup "p2" res.2.1)) =
      some (["p2"], none) := by
  decide

/-- C3 (amended): for any chain event, every trigger whose apply list is non-empty
has its predicate in the evaluated map; a rollback-only trigger (possible only in a
reorg event) need not appear there, because rollback blocks are never recorded as
evaluated. -/
theorem c3_amended (env : ExternalEnv) (chain_event : BitcoinChainEvent)
    (hooks : List BitcoinChainhookInstance)
    (res : List BitcoinTriggerChainhook × UuidMap × UuidMap)
    (hres : evaluate_bitcoin_chainhooks_on_chain_event env chain_event hooks = some res)
    (t : BitcoinTriggerChainhook) (ht : t ∈ res.1) (hap : t.apply ≠ []) :
    ∃ B, mapLookup t.chainhook.uuid res.2.1 = some B := by
  obtain ⟨trig, ev, ex⟩ := res
  cases chain_event with
  | ChainUpdatedWithBlocks event =>
    simp only [evaluate_bitcoin_chainhooks_on_chain_event] at hres
    have h := processHooksBlocks_trigger_cov env event hooks [] [] [] trig ev ex hres
      (fun s hs => by simp at hs)
    exact Option.isSome_iff_exists.mp (h t ht hap)
  | ChainUpdatedWithReorg event =>
    simp only [evaluate_bitcoin_chainhooks_on_chain_event] at hres
    have h := processHooksReorg_trigger_cov env event hooks [] [] [] trig ev ex hres
      (fun s hs => by simp at hs)
    exact Option.isSome_iff_exists.mp (h t ht hap)

/-- Witness for `c3_amended` on a concrete applied-blocks event with one match. -/
theorem c3_amended_witness : ∃ B, mapLookup "p3" c10Result.2.1 = some B :=
  c3_amended trivialEnv c10Event [c10Hook] c10Result (by decide) c10Trigger (by decide)
    (by decide)

/-- The chainhook loop of the applied-blocks branch only pushes triggers with an
empty rollback list and a non-empty apply list. -/
theorem processHooksBlocks_c10 (env : ExternalEnv)
    (event : BitcoinChainUpdatedWithBlocksData) :
    ∀ (hooks : List BitcoinChainhookInstance) (trig : List BitcoinTriggerChainhook)
      (ev ex : UuidMap) (trig' : List BitcoinTriggerChainhook) (ev' ex' : UuidMap),
      processHooksBlocks env hooks event trig ev ex = some (trig', ev', ex') →
      (∀ t ∈ trig, t.rollback = [] ∧ t.apply ≠ []) →
      ∀ t ∈ trig', t.rollback = [] ∧ t.apply ≠ [] := by
  intro hooks
  induction hooks with
  | nil =>
    intro trig ev ex trig' ev' ex' h hinv t ht
    simp only [processHooksBlocks, Option.some.injEq, Prod.mk.injEq] at h
    obtain ⟨h1, _, _⟩ := h
    subst h1
    exact hinv t ht
  | cons hook rest ih =>
    intro trig ev ex trig' ev' ex' h hinv t ht
    simp only [processHooksBlocks] at h
    split at h
    · exact Option.noConfusion h
    · next ev1 ex1 apply1 heq =>
      refine ih _ _ _ _ _ _ h ?_ t ht
      intro s hs
      by_cases hemp : apply1.isEmpty
      · rw [if_pos hemp] at hs
        exact hinv s hs
      · rw [if_neg hemp] at hs
        rcases List.mem_append.mp hs with hold | hnew
        · exact hinv s hold
        · have hseq : s = { chainhook := hook, apply := apply1, rollback := [] } :=
            List.mem_singleton.mp hnew
          subst hseq
          exact ⟨rfl, fun hnil => hemp (by rw [show apply1 = [] from hnil]; rfl)⟩

/-- C10 (confirmed): for an applied-blocks event, every returned trigger has an empty
rollback list and a non-empty apply list. -/
theorem c10 (env : ExternalEnv) (event : BitcoinChainUpdatedWithBlocksData)
    (hooks : List BitcoinChainhookInstance)
    (res : List BitcoinTriggerChainhook × UuidMap × UuidMap)
    (hres : evaluate_bitcoin_chainhooks_on_chain_event env
      (.ChainUpdatedWithBlocks event) hooks = some res) :
    ∀ t ∈ res.1, t.rollback = [] ∧ t.apply ≠ [] := by
  obtain ⟨trig, ev, ex⟩ := res
  simp only [evaluate_bitcoin_chainhooks_on_chain_event] at hres
  exact processHooksBlocks_c10 env event hooks [] [] [] trig ev ex hres
    (fun s hs => by simp at hs)

/-- Witness for `c10` on a concrete applied-blocks event with one match. -/
theorem c10_witness : c10Trigger.rollback = [] ∧ c10Trigger.apply ≠ [] :=
  c10 trivialEnv { new_blocks := [c10Block] } [c10Hook] c10Result (by decide) c10Trigger
    (by decide)

/-! ## Status-store claims -/

/-- C4 counterexample: `set_predicate_scanning_status` overwrites the counters with
its caller-supplied arguments, so a legal Scanning → Scanning update can decrease
`number_of_blocks_evaluated` (here from 5 to 3). -/
theorem c4_counterexample :
    (set_predicate_scanning_status 10 3 1 8 999
        (some (.Scanning ⟨10, 5, 2, 0, 10⟩))).isSome = true ∧
      blocksEvaluatedOfOpt (set_predicate_scanning_status 10 3 1 8 999
          (some (.Scanning ⟨10, 5, 2, 0, 10⟩))) <
        blocksEvaluatedOfOpt (some (.Scanning ⟨10, 5, 2, 0, 10⟩)) := by
  decide

/-- C4 (amended): across `set_predicate_streaming_status` and `set_expired_status`
updates the `number_of_blocks_evaluated` and `number_of_times_triggered` counters are
non-decreasing; `set_predicate_scanning_status` overwrites the counters with its
arguments, and every update overwrites `last_evaluated_block_height`, so those can
decrease. -/
theorem c4_amended (now_ms : Nat) (prior : Option PredicateStatus) :
    (∀ (sdt : StreamingDataType) (st : PredicateStatus),
      set_predicate_streaming_status sdt now_ms prior = some st →
      blocksEvaluatedOfOpt prior ≤ blocksEvaluatedOf st ∧
        timesTriggeredOfOpt prior ≤ timesTriggeredOf st) ∧
    (∀ (n h : Nat) (st : PredicateStatus),
      set_expired_status n h prior = some st →
      blocksEvaluatedOfOpt prior ≤ blocksEvaluatedOf st ∧
        timesTriggeredOfOpt prior ≤ timesTriggeredOf st) := by
  constructor
  · intro sdt st hstep
    rcases prior with _ | status
    · cases sdt <;>
        simp only [set_predicate_streaming_status, Option.some.injEq] at hstep <;>
        subst hstep <;>
        exact ⟨Nat.zero_le _, Nat.zero_le _⟩
    · cases status <;> cases sdt <;>
        simp only [set_predicate_streaming_status, Option.some.injEq] at hstep
      all_goals try exact Option.noConfusion hstep
      all_goals subst hstep
      all_goals exact ⟨by first
        | exact Nat.le_add_right _ _
        | exact Nat.le_refl _, by first
        | exact Nat.le_add_right _ _
        | exact Nat.le_refl _⟩
  · intro n h st hstep
    rcases prior with _ | status
    · simp only [set_expired_status, Option.some.injEq] at hstep
      subst hstep
      exact ⟨Nat.zero_le _, Nat.zero_le _⟩
    · cases status <;>
        simp only [set_expired_status, Option.some.injEq] at hstep
      all_goals try exact Option.noConfusion hstep
      all_goals subst hstep
      all_goals exact ⟨by first
        | exact Nat.le_add_right _ _
        | exact Nat.le_refl _, by first
        | exact Nat.le_add_right _ _
        | exact Nat.le_refl _⟩

/-- Witness for `c4_amended`: an `Occurrence` streaming update over a prior
`Streaming` status grows both counters. -/
theorem c4_amended_witness :
    blocksEvaluatedOfOpt (some (.Streaming ⟨9, 0, 2, 7, 50⟩)) ≤
        blocksEvaluatedOf (.Streaming ⟨999, 999, 3, 8, 60⟩) ∧
      timesTriggeredOfOpt (some (.Streaming ⟨9, 0, 2, 7, 50⟩)) ≤
        timesTriggeredOf (.Streaming ⟨999, 999, 3, 8, 60⟩) :=
  (c4_amended 999 (some (.Streaming ⟨9, 0, 2, 7, 50⟩))).1 (.Occurrence 60 1)
    (.Streaming ⟨999, 999, 3, 8, 60⟩) (by decide)

/-- C6 counterexample: `set_expired_status` with no prior status stores
`number_of_blocks_evaluated = 0`, discarding the `new_blocks_evaluated` argument
(here 5), instead of the claimed `0 + 5`. -/
theorem c6_counterexample :
    (set_expired_status 5 100 none).isSome = true ∧
      blocksEvaluatedOfOpt (set_expired_status 5 100 none) ≠ 0 + 5 := by
  decide

/-- C6 (amended): `set_expired_status` stores an `Expired` status with
`last_evaluated_block_height` set to the argument; from a prior `Scanning`,
`Streaming` or `Expired` status the evaluated counter grows by
`new_blocks_evaluated` and `times_triggered` / `last_occurrence` carry over, while
from `New` or no prior status all three counters are reset to 0 and the
`new_blocks_evaluated` argument is discarded. -/
theorem c6_amended (n h : Nat) (prior : Option PredicateStatus) (st : PredicateStatus)
    (hstep : set_expired_status n h prior = some st) :
    ∃ d, st = .Expired d ∧ d.last_evaluated_block_height = h ∧
      (match prior with
       | some (.Scanning _) | some (.Streaming _) | some (.Expired _) =>
         d.number_of_blocks_evaluated = blocksEvaluatedOfOpt prior + n ∧
           d.number_of_times_triggered = timesTriggeredOfOpt prior ∧
           d.last_occurrence = lastOccurrenceOfOpt prior
       | _ =>
         d.number_of_blocks_evaluated = 0 ∧ d.number_of_times_triggered = 0 ∧
           d.last_occurrence = 0) := by
  rcases prior with _ | status
  · simp only [set_expired_status, Option.some.injEq] at hstep
    subst hstep
    exact ⟨_, rfl, rfl, rfl, rfl, rfl⟩
  · cases status <;>
      simp only [set_expired_status, Option.some.injEq] at hstep
    all_goals try exact Option.noConfusion hstep
    all_goals subst hstep
    all_goals exact ⟨_, rfl, rfl, rfl, rfl, rfl⟩

/-- Witness for `c6_amended` over a prior `Scanning` status. -/
theorem c6_amended_witness :
    ∃ d, PredicateStatus.Expired ⟨11, 2, 9, 60⟩ = PredicateStatus.Expired d ∧
      d.last_evaluated_block_height = 60 ∧
      (d.number_of_blocks_evaluated =
          blocksEvaluatedOfOpt (some (.Scanning ⟨3, 7, 2, 9, 50⟩)) + 4 ∧
        d.number_of_times_triggered =
          timesTriggeredOfOpt (some (.Scanning ⟨3, 7, 2, 9, 50⟩)) ∧
        d.last_occurrence = lastOccurrenceOfOpt (some (.Scanning ⟨3, 7, 2, 9, 50⟩))) :=
  c6_amended 4 60 (some (.Scanning ⟨3, 7, 2, 9, 50⟩)) (.Expired ⟨11, 2, 9, 60⟩)
    (by decide)

/-! ## Archive freshness claim -/

/-- C5 counterexample: an uppercase local SHA (`ABCD...`, 32 chars) against a
lowercase remote body (`abcd...`) is a case-insensitive prefix, yet the code decides
to re-download (only the remote side is lowercased before the comparison). -/
theorem c5_counterexample :
    spec_up_to_date c5LocalSha c5RemoteSha = true ∧
      should_download c5LocalSha c5RemoteSha = some true := by
  decide

/-- C5 (amended): the code holds the file up to date iff the local SHA's 32-byte
prefix, taken verbatim, is a prefix of the ASCII-lowercased remote bytes; this agrees
with the spec's case-insensitive check exactly when the local prefix contains no
uppercase ASCII letters. -/
theorem c5_amended (localSha remoteSha : List Nat) (hlen : 32 ≤ localSha.length)
    (hlower : ∀ b ∈ localSha.take 32, ¬(65 ≤ b ∧ b ≤ 90)) :
    (should_download localSha remoteSha = some false ↔
      spec_up_to_date localSha remoteSha = true) := by
  have hfix : toAsciiLowercaseBytes (localSha.take 32) = localSha.take 32 := by
    have h1 : (localSha.take 32).map (fun b => if 65 ≤ b ∧ b ≤ 90 then b + 32 else b) =
        (localSha.take 32).map id :=
      List.map_congr_left (fun b hb => if_neg (hlower b hb))
    simpa [toAsciiLowercaseBytes] using h1
  unfold should_download local_version_is_latest spec_up_to_date
  rw [if_pos hlen, hfix]
  cases hpre : List.isPrefixOf (localSha.take 32) (toAsciiLowercaseBytes remoteSha) <;>
    simp [hpre]

/-- Witness for `c5_amended` on an all-lowercase local SHA matching the remote. -/
theorem c5_amended_witness :
    should_download c5RemoteSha c5RemoteSha = some false ↔
      spec_up_to_date c5RemoteSha c5RemoteSha = true :=
  c5_amended c5RemoteSha c5RemoteSha (by decide) (by decide)

/-! ## Network-map projection claim -/

/-- C8 (confirmed): `into_specification_for_network` fails exactly when the network is
not a key of the map, and a successful projection carries the requested network. -/
theorem c8 (map : BitcoinChainhookSpecificationNetworkMap) (network : BitcoinNetwork) :
    ((∃ e, into_specification_for_network map network = .error e) ↔
      networksLookup map.networks network = none) ∧
    ∀ inst, into_specification_for_network map network = .ok inst →
      inst.network = network := by
  cases hl : networksLookup map.networks network with
  | none =>
    refine ⟨⟨fun _ => rfl, fun _ => ⟨"Network unknown", ?_⟩⟩, ?_⟩
    · simp [into_specification_for_network, hl]
    · intro inst hinst
      simp [into_specification_for_network, hl] at hinst
  | some spec =>
    refine ⟨⟨fun ⟨e, he⟩ => ?_, fun hn => Option.noConfusion hn⟩, ?_⟩
    · simp [into_specification_for_network, hl] at he
    · intro inst hinst
      simp only [into_specification_for_network, hl, Except.ok.injEq] at hinst
      subst hinst
      rfl

/-- Per-network fields fixture for the projection witness. -/
def c8SampleSpec : BitcoinChainhookSpecification :=
  { blocks := none
    start_block := none
    end_block := none
    expire_after_occurrence := none
    include_proof := none
    include_inputs := none
    include_outputs := none
    include_witness := none
    predicate := .Block
    action := .Noop }

/-- Network-map fixture with a single Mainnet entry. -/
def c8SampleMap : BitcoinChainhookSpecificationNetworkMap :=
  { uuid := "u1"
    owner_uuid := none
    name := "m"
    version := 1
    networks := [(.Mainnet, c8SampleSpec)] }

/-- Witness for `c8`: projecting the fixture to Testnet fails because Testnet is not
a key of its network map. -/
theorem c8_witness :
    networksLookup c8SampleMap.networks .Testnet = none ∧
      ∃ e, into_specification_for_network c8SampleMap .Testnet = .error e :=
  ⟨by decide, (c8 c8SampleMap .Testnet).1.mpr (by decide)⟩

/-! ## Transaction-predicate evaluation claims -/

/-- The model of `OpReturn::from_string` does not panic on a script whose hex payload decodes. -/
theorem opReturnFromString_isSome (s : String)
    (h : (hexDecode (strip0x s)).isSome = true) :
    (opReturnFromString s).isSome = true := by
  unfold opReturnFromString
  split
  · next hd => rw [hd] at h; exact absurd h (by simp)
  · split
    · rfl
    · rfl

/-- The OP_RETURN output loop terminates normally when every output's script decodes
as hex. -/
theorem evalOpReturnOutputs_isSome (rule : MatchingRule) :
    ∀ outputs : List TxOut,
      (∀ o ∈ outputs, (hexDecode (strip0x o.script_pubkey)).isSome = true) →
      (evalOpReturnOutputs rule outputs).isSome = true := by
  intro outputs
  induction outputs with
  | nil => intro _; rfl
  | cons o rest ih =>
    intro hout
    have hsome := opReturnFromString_isSome o.script_pubkey
      (hout o (List.mem_cons_self o rest))
    cases hor : opReturnFromString o.script_pubkey with
    | none => rw [hor] at hsome; exact absurd hsome (by simp)
    | some w =>
      cases w with
      | none =>
        simp only [evalOpReturnOutputs, hor]
        exact ih (fun p hp => hout p (List.mem_cons_of_mem _ hp))
      | some opret =>
        cases rule with
        | StartsWith pat =>
          simp only [evalOpReturnOutputs, hor]
          split
          · rfl
          · exact ih (fun p hp => hout p (List.mem_cons_of_mem _ hp))
        | EndsWith pat =>
          simp only [evalOpReturnOutputs, hor]
          split
          · rfl
          · exact ih (fun p hp => hout p (List.mem_cons_of_mem _ hp))
        | Equals pat =>
          simp only [evalOpReturnOutputs, hor]
          split
          · rfl
          · exact ih (fun p hp => hout p (List.mem_cons_of_mem _ hp))

/-- The address/descriptor output loop terminates normally when every output's script
is at least two characters long. -/
theorem matchOutputsAgainst_isSome (addressBytes : String) :
    ∀ outputs : List TxOut, (∀ o ∈ outputs, 2 ≤ strLength o.script_pubkey) →
      (matchOutputsAgainst addressBytes outputs).isSome = true := by
  intro outputs
  induction outputs with
  | nil => intro _; rfl
  | cons o rest ih =>
    intro hout
    have hlen := hout o (List.mem_cons_self o rest)
    cases hs : sliceFrom2 o.script_pubkey with
    | none =>
      unfold sliceFrom2 at hs
      rw [if_pos hlen] at hs
      exact Option.noConfusion hs
    | some sliced =>
      simp only [matchOutputsAgainst, hs]
      split
      · rfl
      · exact ih (fun p hp => hout p (List.mem_cons_of_mem _ hp))

/-- The descriptor index loop terminates normally when every derivation in the range
succeeds and every output's script is at least two characters long. -/
theorem evalDescriptorIndices_isSome (info : DescriptorInfo) (outputs : List TxOut)
    (hout : ∀ o ∈ outputs, 2 ≤ strLength o.script_pubkey) :
    ∀ idxs : List Nat, (∀ i ∈ idxs, (info.derive i).isSome = true) →
      (evalDescriptorIndices info outputs idxs).isSome = true := by
  intro idxs
  induction idxs with
  | nil => intro _; rfl
  | cons i rest ih =>
    intro hidx
    have hdi := hidx i (List.mem_cons_self i rest)
    cases hd : info.derive i with
    | none => rw [hd] at hdi; exact absurd hdi (by simp)
    | some spk =>
      have hm := matchOutputsAgainst_isSome spk outputs hout
      cases hmo : matchOutputsAgainst spk outputs with
      | none => rw [hmo] at hm; exact absurd hm (by simp)
      | some b =>
        cases b with
        | true =>
          simp only [evalDescriptorIndices, hd, hmo]
          rfl
        | false =>
          simp only [evalDescriptorIndices, hd, hmo]
          exact ih (fun j hj => hidx j (List.mem_cons_of_mem _ hj))

/-- C2 counterexample: the predicate `Outputs(OpReturn(Equals "ff"))` is well-formed
(no reserved variant, no descriptor), yet evaluating it on a transaction whose output
script is the non-hex string `zz` panics (`Vec::<u8>::from_hex(..).unwrap()` in
`OpReturn::from_string`), so evaluation is not total over all transactions. -/
theorem c2_counterexample :
    predicateWellFormed (.Outputs (.OpReturn (.Equals "ff"))) = true ∧
      evaluate_transaction_predicate trivialEnv (.Outputs (.OpReturn (.Equals "ff")))
        c2BadTx = none := by
  decide

/-- C2 (amended): evaluation terminates with a boolean — the embedding is pure, so
freedom from I/O and transaction mutation is inherent — for every well-formed
predicate, provided additionally that every output's `script_pubkey` is a hex string
(with optional `0x` prefix) of length at least two, and that for a descriptor
predicate the expression parses and every derivation over the effective range
succeeds. -/
theorem c2_amended (env : ExternalEnv) (predicate : BitcoinPredicateType)
    (tx : BitcoinTransactionData) (hwf : predicateWellFormed predicate = true)
    (hout : outputsHexOk tx = true) (hdesc : descriptorEnvOk env predicate) :
    (evaluate_transaction_predicate env predicate tx).isSome = true := by
  have houts : ∀ o ∈ tx.metadata.outputs,
      (hexDecode (strip0x o.script_pubkey)).isSome = true ∧
        2 ≤ strLength o.script_pubkey := by
    intro o ho
    unfold outputsHexOk at hout
    have h1 := List.all_eq_true.mp hout o ho
    simp only [Bool.and_eq_true, decide_eq_true_eq] at h1
    exact h1
  cases predicate with
  | Block => rfl
  | Txid rule =>
    cases rule with
    | Equals txid => rfl
  | Inputs ip =>
    cases ip with
    | Txid p => rfl
    | WitnessScript r => exact absurd hwf (by simp [predicateWellFormed])
  | StacksProtocol op => cases op <;> rfl
  | OrdinalsProtocol op =>
    cases op with
    | InscriptionFeed fd =>
      obtain ⟨mp⟩ := fd
      cases mp with
      | none => rfl
      | some protocols =>
        cases protocols with
        | nil => rfl
        | cons p ps => cases p <;> rfl
  | Outputs op =>
    cases op with
    | OpReturn rule =>
      simp only [evaluate_transaction_predicate]
      exact evalOpReturnOutputs_isSome rule tx.metadata.outputs
        (fun o ho => (houts o ho).1)
    | P2pkh rule =>
      cases rule with
      | Equals addr =>
        simp only [evaluate_transaction_predicate]
        cases ha : env.parseAddress addr with
        | none => simp [ha]
        | some address =>
          simp only [ha]
          exact matchOutputsAgainst_isSome _ _ (fun o ho => (houts o ho).2)
    | P2sh rule =>
      cases rule with
      | Equals addr =>
        simp only [evaluate_transaction_predicate]
        cases ha : env.parseAddress addr with
        | none => simp [ha]
        | some address =>
          simp only [ha]
          exact matchOutputsAgainst_isSome _ _ (fun o ho => (houts o ho).2)
    | P2wpkh rule =>
      cases rule with
      | Equals addr =>
        simp only [evaluate_transaction_predicate]
        cases ha : env.parseAddress addr with
        | none => simp [ha]
        | some address =>
          simp only [ha]
          split
          · exact matchOutputsAgainst_isSome _ _ (fun o ho => (houts o ho).2)
          · rfl
    | P2wsh rule =>
      cases rule with
      | Equals addr =>
        simp only [evaluate_transaction_predicate]
        cases ha : env.parseAddress addr with
        | none => simp [ha]
        | some address =>
          simp only [ha]
          split
          · exact matchOutputsAgainst_isSome _ _ (fun o ho => (houts o ho).2)
          · rfl
    | Descriptor rule =>
      obtain ⟨info, hparse, hderive⟩ := hdesc
      simp only [evaluate_transaction_predicate, hparse]
      exact evalDescriptorIndices_isSome info _ (fun o ho => (houts o ho).2) _ hderive

/-- Witness for `c2_amended` on a well-formed OP_RETURN predicate and a transaction
with a well-formed OP_RETURN output. -/
theorem c2_amended_witness :
    (evaluate_transaction_predicate trivialEnv (.Outputs (.OpReturn (.Equals "ff")))
        c2GoodTx).isSome = true :=
  c2_amended trivialEnv (.Outputs (.OpReturn (.Equals "ff"))) c2GoodTx (by decide)
    (by decide) True.intro

/-- C7 counterexample: evaluating the reserved `Inputs(WitnessScript)` predicate on a
concrete transaction panics (`unimplemented!()`, modelled as `none`): it crashes
rather than failing with an `UnsupportedPredicate` error — indeed the evaluator
returns a bare boolean and has no error channel at all. -/
theorem c7_counterexample :
    evaluate_transaction_predicate trivialEnv
      (.Inputs (.WitnessScript (.Equals "aa"))) sampleTx = none := by
  decide

/-- C7 (amended): for every environment, witness-script rule and transaction,
evaluating `Inputs(WitnessScript)` panics via `unimplemented!()`: it never silently
accepts a transaction, but it crashes instead of returning an `UnsupportedPredicate`
error. -/
theorem c7_amended (env : ExternalEnv) (rule : MatchingRule)
    (tx : BitcoinTransactionData) :
    evaluate_transaction_predicate env (.Inputs (.WitnessScript rule)) tx = none := rfl

/-- The `BlockCommitted` scan loop finds exactly the `BlockCommitted` operations. -/
theorem containsBlockCommitted_iff (ops : List StacksBaseChainOperation) :
    containsBlockCommitted ops = true ↔ ∃ op ∈ ops, op = .BlockCommitted := by
  induction ops with
  | nil => simp [containsBlockCommitted]
  | cons op rest ih => cases op <;> simp [containsBlockCommitted, ih]

/-- C9 (confirmed): `StacksProtocol(StackerRewarded)` evaluates identically to
`StacksProtocol(BlockCommitted)` (the source bodies of the two branches are the same
loop), and both return `true` exactly when some element of the transaction's
`stacks_operations` is a `BlockCommitted` operation. -/
theorem c9 (env : ExternalEnv) (tx : BitcoinTransactionData) :
    evaluate_transaction_predicate env (.StacksProtocol .StackerRewarded) tx =
      evaluate_transaction_predicate env (.StacksProtocol .BlockCommitted) tx ∧
    (evaluate_transaction_predicate env (.StacksProtocol .BlockCommitted) tx =
        some true ↔
      ∃ op ∈ tx.metadata.stacks_operations, op = .BlockCommitted) := by
  refine ⟨rfl, ?_⟩
  simp only [evaluate_transaction_predicate, Option.some.injEq]
  exact containsBlockCommitted_iff _

end Chainhook
